import Mathlib

/-!
# MLLP protocol engine — shallow embedding and verification

This file embeds the MLLP (Minimal Lower Layer Protocol) core of the
hl7-testing-framework repository in Lean 4 and proves properties of it.

Modelling conventions:
* a Python `bytes` value is a `List Nat` (each element a byte value < 256 in
  all reachable states; arithmetic is ordinary `Nat` arithmetic, no overflow
  occurs anywhere in this code);
* a Python `str` is a `List Char` (a sequence of Unicode code points);
* `bytes.decode('utf-8')` (strict), `bytes.decode('utf-8', errors='ignore')`
  and the `errors='replace'` handler are embedded as executable UTF-8
  decoders below, following CPython's decoder (WHATWG "maximal subpart"
  error ranges);
* fallible operations return `Option`; code that catches an exception and
  substitutes a value is embedded by the corresponding total function;
* socket I/O is embedded by passing the byte stream (server side, which
  reads one byte at a time until EOF) or the list of `recv` outcomes
  (client side, which reads chunks) explicitly.
-/

namespace MLLP

/-! ## MLLP protocol constants (`src/mllp_client.py` lines 10-13,
`src/mock_target/mock_mllp_target.py` lines 32-34) -/

/-- `START_OF_BLOCK = b'\x0b'` / `self.MLLP_START = b'\x0B'`. -/
def START_OF_BLOCK : Nat := 0x0B

/-- `END_OF_BLOCK = b'\x1c'`. -/
def END_OF_BLOCK : Nat := 0x1C

/-- `CARRIAGE_RETURN = b'\x0d'`. -/
def CARRIAGE_RETURN : Nat := 0x0D

/-- `self.MLLP_END = b'\x1C\x0D'` (file separator + carriage return). -/
def MLLP_END : List Nat := [0x1C, 0x0D]

/-! ## UTF-8 codec

Embeds Python's `str.encode('utf-8')` and `bytes.decode('utf-8', ...)`.
A Lean `Char` is by construction a valid Unicode scalar value, exactly the
code points a Python `str` may hold (surrogates never reach the decoder's
output and never leave the encoder). -/

/-- `str.encode('utf-8')` for a single code point. -/
def utf8EncodeChar (c : Char) : List Nat :=
  let v := c.toNat
  if v < 0x80 then [v]
  else if v < 0x800 then
    [0xC0 + v / 64, 0x80 + v % 64]
  else if v < 0x10000 then
    [0xE0 + v / 4096, 0x80 + (v / 64) % 64, 0x80 + v % 64]
  else
    [0xF0 + v / 262144, 0x80 + (v / 4096) % 64, 0x80 + (v / 64) % 64,
      0x80 + v % 64]

/-- `str.encode('utf-8')`: concatenation of the characters' encodings. -/
def utf8Encode : List Char → List Nat
  | [] => []
  | c :: cs => utf8EncodeChar c ++ utf8Encode cs

/-- Is `b` a UTF-8 continuation byte (`0x80..0xBF`)? -/
def isCont (b : Nat) : Bool := 0x80 ≤ b && b ≤ 0xBF

/-- Admissible first continuation byte after a three-byte lead `b`
(excludes overlong encodings and surrogates, as CPython does). -/
def cont1Ok3 (b c1 : Nat) : Bool :=
  if b = 0xE0 then 0xA0 ≤ c1 && c1 ≤ 0xBF
  else if b = 0xED then 0x80 ≤ c1 && c1 ≤ 0x9F
  else isCont c1

/-- Admissible first continuation byte after a four-byte lead `b`
(excludes overlong encodings and code points above `0x10FFFF`). -/
def cont1Ok4 (b c1 : Nat) : Bool :=
  if b = 0xF0 then 0x90 ≤ c1 && c1 ≤ 0xBF
  else if b = 0xF4 then 0x80 ≤ c1 && c1 ≤ 0x8F
  else isCont c1

/-- `bytes.decode('utf-8')` with strict error handling: `none` exactly when
CPython would raise `UnicodeDecodeError`. -/
def utf8Decode? : List Nat → Option (List Char)
  | [] => some []
  | b :: rest =>
    if b < 0x80 then
      (utf8Decode? rest).map (fun cs => Char.ofNat b :: cs)
    else if b < 0xC2 then none
    else
      match rest with
      | [] => none
      | c1 :: rest1 =>
        if b < 0xE0 then
          if isCont c1 then
            (utf8Decode? rest1).map
              (fun cs => Char.ofNat ((b - 0xC0) * 64 + (c1 - 0x80)) :: cs)
          else none
        else
          match rest1 with
          | [] => none
          | c2 :: rest2 =>
            if b < 0xF0 then
              if cont1Ok3 b c1 && isCont c2 then
                (utf8Decode? rest2).map
                  (fun cs => Char.ofNat
                    ((b - 0xE0) * 4096 + (c1 - 0x80) * 64 + (c2 - 0x80)) :: cs)
              else none
            else
              match rest2 with
              | [] => none
              | c3 :: rest3 =>
                if b < 0xF5 then
                  if cont1Ok4 b c1 && isCont c2 && isCont c3 then
                    (utf8Decode? rest3).map
                      (fun cs => Char.ofNat
                        ((b - 0xF0) * 262144 + (c1 - 0x80) * 4096 +
                          (c2 - 0x80) * 64 + (c3 - 0x80)) :: cs)
                  else none
                else none

/-- `bytes.decode('utf-8', errors='ignore')`: invalid byte sequences are
dropped; each error range is CPython's maximal subpart. Total. -/
def utf8DecodeIgnore : List Nat → List Char
  | [] => []
  | b :: rest =>
    if b < 0x80 then Char.ofNat b :: utf8DecodeIgnore rest
    else if b < 0xC2 then utf8DecodeIgnore rest
    else if b < 0xE0 then
      match rest with
      | c1 :: rest1 =>
        if isCont c1 then
          Char.ofNat ((b - 0xC0) * 64 + (c1 - 0x80)) :: utf8DecodeIgnore rest1
        else utf8DecodeIgnore (c1 :: rest1)
      | [] => []
    else if b < 0xF0 then
      match rest with
      | c1 :: rest1 =>
        if cont1Ok3 b c1 then
          match rest1 with
          | c2 :: rest2 =>
            if isCont c2 then
              Char.ofNat ((b - 0xE0) * 4096 + (c1 - 0x80) * 64 + (c2 - 0x80))
                :: utf8DecodeIgnore rest2
            else utf8DecodeIgnore (c2 :: rest2)
          | [] => []
        else utf8DecodeIgnore (c1 :: rest1)
      | [] => []
    else if b < 0xF5 then
      match rest with
      | c1 :: rest1 =>
        if cont1Ok4 b c1 then
          match rest1 with
          | c2 :: rest2 =>
            if isCont c2 then
              match rest2 with
              | c3 :: rest3 =>
                if isCont c3 then
                  Char.ofNat ((b - 0xF0) * 262144 + (c1 - 0x80) * 4096 +
                    (c2 - 0x80) * 64 + (c3 - 0x80)) :: utf8DecodeIgnore rest3
                else utf8DecodeIgnore (c3 :: rest3)
              | [] => []
            else utf8DecodeIgnore (c2 :: rest2)
          | [] => []
        else utf8DecodeIgnore (c1 :: rest1)
      | [] => []
    else utf8DecodeIgnore rest

/-- `bytes.decode('utf-8', errors='replace')` — the behaviour the spec's
words "invalid byte sequences are replaced rather than rejected" denote:
each invalid maximal subpart becomes one U+FFFD replacement character.
Stated for comparison against the decode the source actually performs. -/
def utf8DecodeReplace : List Nat → List Char
  | [] => []
  | b :: rest =>
    if b < 0x80 then Char.ofNat b :: utf8DecodeReplace rest
    else if b < 0xC2 then '�' :: utf8DecodeReplace rest
    else if b < 0xE0 then
      match rest with
      | c1 :: rest1 =>
        if isCont c1 then
          Char.ofNat ((b - 0xC0) * 64 + (c1 - 0x80)) :: utf8DecodeReplace rest1
        else '�' :: utf8DecodeReplace (c1 :: rest1)
      | [] => ['�']
    else if b < 0xF0 then
      match rest with
      | c1 :: rest1 =>
        if cont1Ok3 b c1 then
          match rest1 with
          | c2 :: rest2 =>
            if isCont c2 then
              Char.ofNat ((b - 0xE0) * 4096 + (c1 - 0x80) * 64 + (c2 - 0x80))
                :: utf8DecodeReplace rest2
            else '�' :: utf8DecodeReplace (c2 :: rest2)
          | [] => ['�']
        else '�' :: utf8DecodeReplace (c1 :: rest1)
      | [] => ['�']
    else if b < 0xF5 then
      match rest with
      | c1 :: rest1 =>
        if cont1Ok4 b c1 then
          match rest1 with
          | c2 :: rest2 =>
            if isCont c2 then
              match rest2 with
              | c3 :: rest3 =>
                if isCont c3 then
                  Char.ofNat ((b - 0xF0) * 262144 + (c1 - 0x80) * 4096 +
                    (c2 - 0x80) * 64 + (c3 - 0x80)) :: utf8DecodeReplace rest3
                else '�' :: utf8DecodeReplace (c3 :: rest3)
              | [] => ['�']
            else '�' :: utf8DecodeReplace (c2 :: rest2)
          | [] => ['�']
        else '�' :: utf8DecodeReplace (c1 :: rest1)
      | [] => ['�']
    else '�' :: utf8DecodeReplace rest

/-! ## Python string/bytes primitives used by the source -/

/-- Python `str.split(sep)` for a one-character separator `sep` (the source
only ever splits on `'\n'`, `'\r'` and `'|'`): splits at every occurrence,
keeping empty pieces; the result is never empty (`''.split(sep) == ['']`). -/
def splitOnC (sep : Char) : List Char → List (List Char)
  | [] => [[]]
  | c :: rest =>
    if c = sep then [] :: splitOnC sep rest
    else
      match splitOnC sep rest with
      | h :: t => (c :: h) :: t
      | [] => [[c]]

/-- Python `bytes.replace(pat, b'')` for a single-byte pattern `pat`:
removes every occurrence of that byte. -/
def replaceByteEmpty (pat : Nat) (l : List Nat) : List Nat :=
  l.filter (fun b => b ≠ pat)

/-! ## MLLP Client (`src/mllp_client.py`) -/

/-- `send_message` line 49: `mllp_message = START_OF_BLOCK +
hl7_message.encode('utf-8') + END_OF_BLOCK + CARRIAGE_RETURN` — the frame
put on the wire for a payload already given as bytes. -/
def mllpWrap (payload : List Nat) : List Nat :=
  START_OF_BLOCK :: payload ++ [END_OF_BLOCK, CARRIAGE_RETURN]

/-- `MLLPClient._unwrap_mllp` (lines 97-107): remove every occurrence of
the three wrapper bytes anywhere in the buffer, then `decode('utf-8')`;
a `UnicodeDecodeError` is caught and the empty string returned. -/
def unwrapMllp (mllpMessage : List Nat) : List Char :=
  let m1 := replaceByteEmpty START_OF_BLOCK mllpMessage
  let m2 := replaceByteEmpty END_OF_BLOCK m1
  let m3 := replaceByteEmpty CARRIAGE_RETURN m2
  match utf8Decode? m3 with
  | some s => s
  | none => []

/-- `MLLPClient._is_positive_ack` (lines 109-117): scan the `'\n'`-split
lines for one that `startswith('MSA')` and whose field 1 after `split('|')`
equals `'AA'`. -/
def isPositiveAck (ackMessage : List Char) : Bool :=
  (splitOnC '\n' ackMessage).any fun line =>
    "MSA".data.isPrefixOf line && ((splitOnC '|' line)[1]? == some "AA".data)

/-- `END_OF_BLOCK + CARRIAGE_RETURN in response` (line 90): does the buffer
contain the two-byte end sequence as a contiguous subsequence? -/
def hasEndSeq : List Nat → Bool
  | [] => false
  | [_] => false
  | b :: b2 :: rest => (b == 0x1C && b2 == 0x0D) || hasEndSeq (b2 :: rest)

/-- One `self.socket.recv(4096)` outcome as the client observes it:
a chunk of bytes (empty = peer closed), a `socket.timeout`, or another
`OSError`. -/
inductive RecvEv where
  | chunk (bs : List Nat)
  | timeout
  | errOther
deriving DecidableEq

/-- `MLLPClient._receive_response` (lines 80-95): accumulate chunks until
the buffer contains the end sequence or the peer closes; ANY exception —
including `socket.timeout`, which subclasses `Exception` — is caught here
and turned into `None`. An exhausted event list stands for a `recv` that
never returns; no theorem below reaches that case. -/
def receiveResponse (response : List Nat) : List RecvEv → Option (List Nat)
  | [] => none
  | RecvEv.timeout :: _ => none
  | RecvEv.errOther :: _ => none
  | RecvEv.chunk [] :: _ => some response
  | RecvEv.chunk bs :: rest =>
    let response2 := response ++ bs
    if hasEndSeq response2 then some response2
    else receiveResponse response2 rest

/-- The state of the Python socket object held in `self.socket`: freshly
created but never connected (as left behind by a failed `connect`), or
connected. -/
inductive SockSt where
  | fresh
  | connected
deriving DecidableEq

/-- `MLLPClient`'s mutable state: `self.socket`, `None` until assigned. -/
structure Client where
  sock : Option SockSt
deriving DecidableEq

/-- Outcome of `self.socket.sendall(...)` on a connected socket. -/
inductive SendallRes where
  | ok
  | sTimeout
  | sErr (msg : List Char)
deriving DecidableEq

/-- The network environment one `send_message` call runs against: whether a
`connect` attempt would succeed, how `sendall` behaves on a connected
socket, the text of the `OSError` that `sendall` raises on a
never-connected socket, and the sequence of `recv` outcomes. -/
structure NetEnv where
  connectOk : Bool
  sendallRes : SendallRes
  osErrMsg : List Char
  recvEvents : List RecvEv

/-- Result triple of `send_message`: `(success, ack_message, error)`. -/
structure SendResult where
  success : Bool
  ack : Option (List Char)
  error : Option (List Char)
deriving DecidableEq

/-- `MLLPClient.connect` (lines 24-34): `self.socket` is assigned the new
socket object BEFORE the TCP connect is attempted, so a failed connect
still leaves `self.socket` non-`None` (holding an unconnected socket);
the exception is caught and `False` returned. -/
def connectM (env : NetEnv) (_c : Client) : Client × Bool :=
  if env.connectOk then ({ sock := some SockSt.connected }, true)
  else ({ sock := some SockSt.fresh }, false)

/-- `self.socket.sendall(mllp_message)`: on a never-connected socket it
raises `OSError` (not `socket.timeout`); on a connected socket the outcome
comes from the environment. -/
def sendallM (env : NetEnv) : SockSt → SendallRes
  | SockSt.fresh => SendallRes.sErr env.osErrMsg
  | SockSt.connected => env.sendallRes

/-- The body of `send_message` after the connectivity check (lines 48-78):
send the frame, receive, unwrap, classify; `socket.timeout` escaping
`sendall` is caught by the dedicated handler (line 71), any other
exception by the generic one (line 75). A falsy response — `None` or
`b''` — yields `"No ACK received"`. -/
def sendAfterConnect (env : NetEnv) (s : SockSt) : SendResult :=
  match sendallM env s with
  | SendallRes.sTimeout =>
    { success := false, ack := none, error := some "Timeout waiting for ACK".data }
  | SendallRes.sErr m =>
    { success := false, ack := none,
      error := some ("Error sending message: ".data ++ m) }
  | SendallRes.ok =>
    match receiveResponse [] env.recvEvents with
    | none =>
      { success := false, ack := none, error := some "No ACK received".data }
    | some resp =>
      if resp = [] then
        { success := false, ack := none, error := some "No ACK received".data }
      else
        let ackMessage := unwrapMllp resp
        if isPositiveAck ackMessage then
          { success := true, ack := some ackMessage, error := none }
        else
          { success := false, ack := some ackMessage,
            error := some "Negative ACK received".data }

/-- `MLLPClient.send_message` (lines 36-78): reconnect only when
`self.socket` is `None`; returns the updated client state and the result
triple. -/
def sendMessage (env : NetEnv) (c : Client) : Client × SendResult :=
  match c.sock with
  | none =>
    if env.connectOk then
      ({ sock := some SockSt.connected }, sendAfterConnect env SockSt.connected)
    else
      ({ sock := some SockSt.fresh },
        { success := false, ack := none,
          error := some "Failed to connect to server".data })
  | some s => (c, sendAfterConnect env s)

/-! ## MLLP Server — Connection Reader
(`src/mock_target/mock_mllp_target.py`) -/

/-- The SEEKING_START phase of `_read_mllp_message` (lines 122-128): read
one byte at a time, discarding until `MLLP_START`; `none` when the socket
closes (the stream is exhausted) first. Returns the bytes remaining after
the start sentinel. -/
def dropUntilStart : List Nat → Option (List Nat)
  | [] => none
  | b :: rest => if b = START_OF_BLOCK then some rest else dropUntilStart rest

/-- `buffer.endswith(self.MLLP_END)` (line 139). -/
def endsWithEnd (buffer : List Nat) : Bool := MLLP_END.isSuffixOf buffer

/-- The ACCUMULATING phase of `_read_mllp_message` (lines 130-144): append
byte by byte; when the buffer ends with `MLLP_END`, strip those two bytes
and decode with `errors='ignore'`; on close (exhausted stream) return
`none`. -/
def readBody (buffer : List Nat) : List Nat → Option (List Char)
  | [] => none
  | b :: rest =>
    let buffer2 := buffer ++ [b]
    if endsWithEnd buffer2 then
      some (utf8DecodeIgnore (buffer2.take (buffer2.length - 2)))
    else readBody buffer2 rest

/-- `MockMLLPTarget._read_mllp_message` (lines 110-148) on a finite byte
stream whose exhaustion is the peer closing the connection. -/
def readMllpMessage (stream : List Nat) : Option (List Char) :=
  match dropUntilStart stream with
  | none => none
  | some rest => readBody [] rest

/-- Modelled from the spec: the server-side control-identifier extraction.
Its implementation (`HL7Parser`) is not under `src/`; per the spec (§3) the
control identifier is the 10th pipe-delimited field of the header segment
(the first line; the wire messages of the spec's scenarios separate lines
with `'\r'`), i.e. index 9 after splitting on `'|'`, with an explicit
"unknown" sentinel when the header is absent or short. -/
def serverControlId (message : List Char) : List Char :=
  let header := (splitOnC '\r' message).headD []
  let fields := splitOnC '|' header
  (fields[9]?).getD "UNKNOWN".data

/-- Modelled from the spec: the acknowledgment payload synthesized by
`_process_message`, which is not under `src/` (only its caller
`_handle_client` is). Per the spec (§4.4) it carries the positive code
`MSA|AA|<original-control-id>`. -/
def ackPayload (message : List Char) : List Char :=
  "MSA|AA|".data ++ serverControlId message

/-- Modelled from the spec: the write-back performed by
`_process_message`, which is not under `src/` (only its caller
`_handle_client` is). Per the spec (§4.4) the handler frames the
acknowledgment payload via the Codec and writes it back. -/
def processMessageWrite (message : List Char) : List Nat :=
  mllpWrap (utf8Encode (ackPayload message))

/-- `MockMLLPTarget._handle_client` (lines 81-108): read one message;
`if message:` (line 96) — a truthy message, i.e. neither `None` nor the
empty string — write back the framed acknowledgment (the spec-modelled
`processMessageWrite`); in all cases close the connection (the `finally`
block). Result: (bytes written back, if any; connection closed). -/
def handleClient (stream : List Nat) : Option (List Nat) × Bool :=
  match readMllpMessage stream with
  | some message =>
    if message = [] then (none, true)
    else (some (processMessageWrite message), true)
  | none => (none, true)

/-! ## Test runner (`src/test_runner.py`) -/

/-- The pipe-delimited fields of the first `'\n'`-line of a message
(`_extract_message_id` lines 214-215; `split('\n')[0]` never fails since
Python's `split` never returns an empty list). -/
def headerFields (hl7Message : List Char) : List (List Char) :=
  splitOnC '|' ((splitOnC '\n' hl7Message).headD [])

/-- `TestRunner._extract_message_id` (lines 210-221): field index 9 of the
header when there are more than 9 fields, the `"UNKNOWN"` sentinel
otherwise; total, mirroring that the code never raises. -/
def extractMessageId (hl7Message : List Char) : List Char :=
  match (headerFields hl7Message)[9]? with
  | some f => f
  | none => "UNKNOWN".data

/-! ## Lemmas about the UTF-8 codec -/

theorem char_toNat_ofNat {n : Nat} (h : Nat.isValidChar n) :
    (Char.ofNat n).toNat = n := by
  unfold Char.ofNat
  rw [dif_pos h]
  rfl

theorem char_isValid (c : Char) : Nat.isValidChar c.toNat := c.valid

/-- Decoding the encoding of one character, followed by bytes that decode
to `cs`, yields the character consed onto `cs`. -/
theorem utf8Decode?_encodeChar (c : Char) (rest : List Nat) (cs : List Char)
    (h : utf8Decode? rest = some cs) :
    utf8Decode? (utf8EncodeChar c ++ rest) = some (c :: cs) := by
  have hval : Nat.isValidChar c.toNat := char_isValid c
  have hofnat : Char.ofNat c.toNat = c := Char.ofNat_toNat c
  by_cases h1 : c.toNat < 0x80
  · have he : utf8EncodeChar c = [c.toNat] := by
      simp only [utf8EncodeChar]
      rw [if_pos h1]
    rw [he, List.singleton_append, utf8Decode?.eq_def]
    dsimp only []
    rw [if_pos h1, h]
    simp only [Option.map_some']
    rw [hofnat]
  · by_cases h2 : c.toNat < 0x800
    · have he : utf8EncodeChar c = [0xC0 + c.toNat / 64, 0x80 + c.toNat % 64] := by
        simp only [utf8EncodeChar]
        rw [if_neg h1, if_pos h2]
      rw [he]
      simp only [List.cons_append, List.nil_append]
      rw [utf8Decode?.eq_def]
      dsimp only []
      rw [if_neg (by omega), if_neg (by omega), if_pos (by omega),
        if_pos (show isCont (0x80 + c.toNat % 64) = true by
          simp only [isCont, Bool.and_eq_true, decide_eq_true_eq]
          omega),
        h]
      simp only [Option.map_some']
      have harith : (0xC0 + c.toNat / 64 - 0xC0) * 64 +
          (0x80 + c.toNat % 64 - 0x80) = c.toNat := by
        omega
      rw [harith, hofnat]
    · by_cases h3 : c.toNat < 0x10000
      · have hd : c.toNat < 0xD800 ∨ 0xE000 ≤ c.toNat := by
          rcases hval with hs | ⟨hs1, hs2⟩
          · exact Or.inl hs
          · right; omega
        have he : utf8EncodeChar c =
            [0xE0 + c.toNat / 4096, 0x80 + (c.toNat / 64) % 64,
              0x80 + c.toNat % 64] := by
          simp only [utf8EncodeChar]
          rw [if_neg h1, if_neg h2, if_pos h3]
        rw [he]
        simp only [List.cons_append, List.nil_append]
        rw [utf8Decode?.eq_def]
        dsimp only []
        rw [if_neg (by omega), if_neg (by omega), if_neg (by omega),
          if_pos (by omega)]
        have hc1 : cont1Ok3 (0xE0 + c.toNat / 4096) (0x80 + (c.toNat / 64) % 64)
            = true := by
          unfold cont1Ok3 isCont
          split_ifs with hE hD
          · simp only [Bool.and_eq_true, decide_eq_true_eq]
            constructor <;> omega
          · simp only [Bool.and_eq_true, decide_eq_true_eq]
            rcases hd with hd | hd <;> constructor <;> omega
          · simp only [Bool.and_eq_true, decide_eq_true_eq]
            constructor <;> omega
        rw [if_pos (show (cont1Ok3 (0xE0 + c.toNat / 4096)
              (0x80 + (c.toNat / 64) % 64) &&
              isCont (0x80 + c.toNat % 64)) = true by
            rw [hc1]
            simp only [isCont, Bool.true_and, Bool.and_eq_true,
              decide_eq_true_eq]
            omega),
          h]
        simp only [Option.map_some']
        have harith : (0xE0 + c.toNat / 4096 - 0xE0) * 4096 +
            (0x80 + (c.toNat / 64) % 64 - 0x80) * 64 +
            (0x80 + c.toNat % 64 - 0x80) = c.toNat := by
          omega
        rw [harith, hofnat]
      · have hlt : c.toNat < 0x110000 := by
          rcases hval with hs | ⟨hs1, hs2⟩
          · omega
          · exact hs2
        have he : utf8EncodeChar c =
            [0xF0 + c.toNat / 262144, 0x80 + (c.toNat / 4096) % 64,
              0x80 + (c.toNat / 64) % 64, 0x80 + c.toNat % 64] := by
          simp only [utf8EncodeChar]
          rw [if_neg h1, if_neg h2, if_neg h3]
        rw [he]
        simp only [List.cons_append, List.nil_append]
        rw [utf8Decode?.eq_def]
        dsimp only []
        rw [if_neg (by omega), if_neg (by omega), if_neg (by omega),
          if_neg (by omega), if_pos (by omega)]
        have hc1 : cont1Ok4 (0xF0 + c.toNat / 262144)
            (0x80 + (c.toNat / 4096) % 64) = true := by
          unfold cont1Ok4 isCont
          split_ifs with hE hD
          · simp only [Bool.and_eq_true, decide_eq_true_eq]
            constructor <;> omega
          · simp only [Bool.and_eq_true, decide_eq_true_eq]
            constructor <;> omega
          · simp only [Bool.and_eq_true, decide_eq_true_eq]
            constructor <;> omega
        rw [if_pos (show (cont1Ok4 (0xF0 + c.toNat / 262144)
              (0x80 + (c.toNat / 4096) % 64) &&
              isCont (0x80 + (c.toNat / 64) % 64) &&
              isCont (0x80 + c.toNat % 64)) = true by
            rw [hc1]
            simp only [isCont, Bool.true_and, Bool.and_eq_true,
              decide_eq_true_eq]
            omega),
          h]
        simp only [Option.map_some']
        have harith : (0xF0 + c.toNat / 262144 - 0xF0) * 262144 +
            (0x80 + (c.toNat / 4096) % 64 - 0x80) * 4096 +
            (0x80 + (c.toNat / 64) % 64 - 0x80) * 64 +
            (0x80 + c.toNat % 64 - 0x80) = c.toNat := by
          omega
        rw [harith, hofnat]

/-- UTF-8 round trip: strict decoding inverts encoding on every string. -/
theorem utf8Decode?_utf8Encode (s : List Char) :
    utf8Decode? (utf8Encode s) = some s := by
  induction s with
  | nil => rfl
  | cons c cs ih => exact utf8Decode?_encodeChar c (utf8Encode cs) cs ih

/-- An ASCII byte occurs in an encoded string only if the corresponding
character occurs in the string (multi-byte sequences use bytes ≥ 0x80). -/
theorem mem_utf8Encode_ascii {b : Nat} (hb : b < 0x80) {s : List Char}
    (h : b ∈ utf8Encode s) : Char.ofNat b ∈ s := by
  induction s with
  | nil => simp [utf8Encode] at h
  | cons c cs ih =>
    simp only [utf8Encode, List.mem_append] at h
    rw [List.mem_cons]
    rcases h with h | h
    · left
      simp only [utf8EncodeChar] at h
      split_ifs at h with h1 h2 h3
      · simp only [List.mem_singleton] at h
        rw [h, Char.ofNat_toNat]
      · simp only [List.mem_cons, List.not_mem_nil, or_false] at h
        rcases h with h | h <;> omega
      · simp only [List.mem_cons, List.not_mem_nil, or_false] at h
        rcases h with h | h | h <;> omega
      · simp only [List.mem_cons, List.not_mem_nil, or_false] at h
        rcases h with h | h | h | h <;> omega
    · exact Or.inr (ih h)

/-- An ASCII character in a strictly decoded string stems from the
corresponding single byte somewhere in the input: multi-byte sequences
decode to code points ≥ 0x80. -/
theorem ascii_mem_of_utf8Decode? {bs : List Nat} {cs : List Char}
    (h : utf8Decode? bs = some cs) {c : Char} (hc : c ∈ cs)
    (hlt : c.toNat < 0x80) : c.toNat ∈ bs := by
  induction bs using utf8Decode?.induct generalizing cs with
  | case1 =>
    simp only [utf8Decode?] at h
    cases h
    simp at hc
  | case2 b rest hb ih =>
    rw [utf8Decode?.eq_def] at h
    dsimp only [] at h
    rw [if_pos hb] at h
    cases hrest : utf8Decode? rest with
    | none => rw [hrest] at h; exact Option.noConfusion h
    | some cs2 =>
      rw [hrest] at h
      simp only [Option.map_some', Option.some.injEq] at h
      subst h
      rcases List.mem_cons.mp hc with hc | hc
      · have hvb : Nat.isValidChar b := Or.inl (by omega)
        have hcb : c.toNat = b := by rw [hc, char_toNat_ofNat hvb]
        rw [hcb]
        exact List.mem_cons_self b rest
      · exact List.mem_cons_of_mem b (ih hrest hc)
  | case3 b rest hb1 hb2 =>
    rw [utf8Decode?.eq_def] at h
    dsimp only [] at h
    rw [if_neg hb1, if_pos hb2] at h
    exact Option.noConfusion h
  | case4 b hb1 hb2 =>
    rw [utf8Decode?.eq_def] at h
    dsimp only [] at h
    rw [if_neg hb1, if_neg hb2] at h
    exact Option.noConfusion h
  | case5 b hb1 hb2 c1 rest1 hb3 hcont ih =>
    rw [utf8Decode?.eq_def] at h
    dsimp only [] at h
    rw [if_neg hb1, if_neg hb2, if_pos hb3, if_pos hcont] at h
    cases hrest : utf8Decode? rest1 with
    | none => rw [hrest] at h; exact Option.noConfusion h
    | some cs2 =>
      rw [hrest] at h
      simp only [Option.map_some', Option.some.injEq] at h
      subst h
      simp only [isCont, Bool.and_eq_true, decide_eq_true_eq] at hcont
      rcases List.mem_cons.mp hc with hc | hc
      · have hvb : Nat.isValidChar ((b - 0xC0) * 64 + (c1 - 0x80)) :=
          Or.inl (by omega)
        rw [hc, char_toNat_ofNat hvb] at hlt
        omega
      · exact List.mem_cons_of_mem b
          (List.mem_cons_of_mem c1 (ih hrest hc))
  | case6 b hb1 hb2 c1 rest1 hb3 hcont =>
    rw [utf8Decode?.eq_def] at h
    dsimp only [] at h
    rw [if_neg hb1, if_neg hb2, if_pos hb3, if_neg hcont] at h
    exact Option.noConfusion h
  | case7 b hb1 hb2 c1 hb3 =>
    rw [utf8Decode?.eq_def] at h
    dsimp only [] at h
    rw [if_neg hb1, if_neg hb2, if_neg hb3] at h
    exact Option.noConfusion h
  | case8 b hb1 hb2 c1 hb3 c2 rest2 hb4 hcont ih =>
    rw [utf8Decode?.eq_def] at h
    dsimp only [] at h
    rw [if_neg hb1, if_neg hb2, if_neg hb3, if_pos hb4, if_pos hcont] at h
    cases hrest : utf8Decode? rest2 with
    | none => rw [hrest] at h; exact Option.noConfusion h
    | some cs2 =>
      rw [hrest] at h
      simp only [Option.map_some', Option.some.injEq] at h
      subst h
      simp only [Bool.and_eq_true] at hcont
      have hc2 : 0x80 ≤ c2 ∧ c2 ≤ 0xBF := by
        have h2 := hcont.2
        simp only [isCont, Bool.and_eq_true, decide_eq_true_eq] at h2
        exact h2
      have hc1b : (b = 0xE0 → 0xA0 ≤ c1) ∧ (b = 0xED → c1 ≤ 0x9F) ∧
          0x80 ≤ c1 ∧ c1 ≤ 0xBF := by
        have hok := hcont.1
        unfold cont1Ok3 at hok
        split_ifs at hok with hE hD
        · simp only [Bool.and_eq_true, decide_eq_true_eq] at hok
          exact ⟨fun hu => hok.1, fun hcontr => by omega, by omega, by omega⟩
        · simp only [Bool.and_eq_true, decide_eq_true_eq] at hok
          exact ⟨fun hcontr => absurd hcontr hE, fun hu => hok.2, hok.1,
            by omega⟩
        · simp only [isCont, Bool.and_eq_true, decide_eq_true_eq] at hok
          exact ⟨fun hcontr => absurd hcontr hE,
            fun hcontr => absurd hcontr hD, hok.1, hok.2⟩
      rcases List.mem_cons.mp hc with hc | hc
      · rcases hc1b with ⟨h224, himp, hlo, hhi⟩
        have hvb : Nat.isValidChar
            ((b - 0xE0) * 4096 + (c1 - 0x80) * 64 + (c2 - 0x80)) := by
          by_cases hbd : b = 0xED
          · have h9 := himp hbd
            exact Or.inl (by omega)
          · have hbne : b ≤ 0xEC ∨ 0xEE ≤ b := by omega
            show _ ∨ _
            rcases hbne with hbne | hbne
            · left; omega
            · right; omega
        rw [hc, char_toNat_ofNat hvb] at hlt
        by_cases hbd : b = 0xE0
        · have h10 := h224 hbd
          omega
        · omega
      · exact List.mem_cons_of_mem b (List.mem_cons_of_mem c1
          (List.mem_cons_of_mem c2 (ih hrest hc)))
  | case9 b hb1 hb2 c1 hb3 c2 rest2 hb4 hcont =>
    rw [utf8Decode?.eq_def] at h
    dsimp only [] at h
    rw [if_neg hb1, if_neg hb2, if_neg hb3, if_pos hb4, if_neg hcont] at h
    exact Option.noConfusion h
  | case10 b hb1 hb2 c1 hb3 c2 hb4 =>
    rw [utf8Decode?.eq_def] at h
    dsimp only [] at h
    rw [if_neg hb1, if_neg hb2, if_neg hb3, if_neg hb4] at h
    exact Option.noConfusion h
  | case11 b hb1 hb2 c1 hb3 c2 hb4 c3 rest3 hb5 hcont ih =>
    rw [utf8Decode?.eq_def] at h
    dsimp only [] at h
    rw [if_neg hb1, if_neg hb2, if_neg hb3, if_neg hb4, if_pos hb5,
      if_pos hcont] at h
    cases hrest : utf8Decode? rest3 with
    | none => rw [hrest] at h; exact Option.noConfusion h
    | some cs2 =>
      rw [hrest] at h
      simp only [Option.map_some', Option.some.injEq] at h
      subst h
      simp only [Bool.and_eq_true] at hcont
      have hc2 : 0x80 ≤ c2 ∧ c2 ≤ 0xBF := by
        have h2 := hcont.1.2
        simp only [isCont, Bool.and_eq_true, decide_eq_true_eq] at h2
        exact h2
      have hc3 : 0x80 ≤ c3 ∧ c3 ≤ 0xBF := by
        have h3 := hcont.2
        simp only [isCont, Bool.and_eq_true, decide_eq_true_eq] at h3
        exact h3
      have hc1b : (b = 0xF0 → 0x90 ≤ c1) ∧ (b = 0xF4 → c1 ≤ 0x8F) ∧
          0x80 ≤ c1 ∧ c1 ≤ 0xBF := by
        have hok := hcont.1.1
        unfold cont1Ok4 at hok
        split_ifs at hok with hE hD
        · simp only [Bool.and_eq_true, decide_eq_true_eq] at hok
          exact ⟨fun hu => hok.1, fun hcontr => by omega, by omega, by omega⟩
        · simp only [Bool.and_eq_true, decide_eq_true_eq] at hok
          exact ⟨fun hcontr => absurd hcontr hE, fun hu => hok.2, hok.1,
            by omega⟩
        · simp only [isCont, Bool.and_eq_true, decide_eq_true_eq] at hok
          exact ⟨fun hcontr => absurd hcontr hE,
            fun hcontr => absurd hcontr hD, hok.1, hok.2⟩
      rcases List.mem_cons.mp hc with hc | hc
      · rcases hc1b with ⟨h240, h244, hlo, hhi⟩
        have hvb : Nat.isValidChar
            ((b - 0xF0) * 262144 + (c1 - 0x80) * 4096 + (c2 - 0x80) * 64 +
              (c3 - 0x80)) := by
          show _ ∨ _
          right
          constructor
          · by_cases hbd : b = 0xF0
            · have h16 := h240 hbd
              omega
            · omega
          · by_cases hbd : b = 0xF4
            · have h15 := h244 hbd
              omega
            · omega
        rw [hc, char_toNat_ofNat hvb] at hlt
        by_cases hbd : b = 0xF0
        · have h17 := h240 hbd
          omega
        · omega
      · exact List.mem_cons_of_mem b (List.mem_cons_of_mem c1
          (List.mem_cons_of_mem c2 (List.mem_cons_of_mem c3 (ih hrest hc))))
  | case12 b hb1 hb2 c1 hb3 c2 hb4 c3 rest3 hb5 hcont =>
    rw [utf8Decode?.eq_def] at h
    dsimp only [] at h
    rw [if_neg hb1, if_neg hb2, if_neg hb3, if_neg hb4, if_pos hb5,
      if_neg hcont] at h
    exact Option.noConfusion h
  | case13 b hb1 hb2 c1 hb3 c2 hb4 c3 rest3 hb5 =>
    rw [utf8Decode?.eq_def] at h
    dsimp only [] at h
    rw [if_neg hb1, if_neg hb2, if_neg hb3, if_neg hb4, if_neg hb5] at h
    exact Option.noConfusion h

/-! ## Lemmas about the client's unwrap -/

theorem replaceByteEmpty_of_not_mem {pat : Nat} {l : List Nat} (h : pat ∉ l) :
    replaceByteEmpty pat l = l := by
  apply List.filter_eq_self.mpr
  intro a ha
  simp only [ne_eq, decide_eq_true_eq]
  rintro rfl
  exact h ha

/-- Stripping the three wrapper bytes from a frame around a payload that
contains none of them recovers the payload. -/
theorem strip_mllpWrap (bs : List Nat) (h11 : START_OF_BLOCK ∉ bs)
    (h28 : END_OF_BLOCK ∉ bs) (h13 : CARRIAGE_RETURN ∉ bs) :
    replaceByteEmpty CARRIAGE_RETURN (replaceByteEmpty END_OF_BLOCK
      (replaceByteEmpty START_OF_BLOCK (mllpWrap bs))) = bs := by
  unfold mllpWrap replaceByteEmpty START_OF_BLOCK END_OF_BLOCK CARRIAGE_RETURN
  unfold START_OF_BLOCK at h11
  unfold END_OF_BLOCK at h28
  unfold CARRIAGE_RETURN at h13
  simp only [List.filter_append, List.filter_cons, List.filter_nil]
  norm_num
  intro a ha
  refine ⟨?_, ?_, ?_⟩ <;> rintro rfl
  · exact h13 ha
  · exact h28 ha
  · exact h11 ha

/-- A character of the string produced by `_unwrap_mllp` is never one of
the three sentinel characters: the corresponding bytes are all removed
before decoding, and decoded ASCII characters stem from ASCII bytes. -/
theorem unwrapMllp_no_sentinel_chars (buf : List Nat) (c : Char)
    (hc : c ∈ unwrapMllp buf) :
    c ≠ '\x0B' ∧ c ≠ '\x1C' ∧ c ≠ '\x0D' := by
  simp only [unwrapMllp] at hc
  cases hdec : utf8Decode? (replaceByteEmpty CARRIAGE_RETURN
      (replaceByteEmpty END_OF_BLOCK
        (replaceByteEmpty START_OF_BLOCK buf))) with
  | none =>
    rw [hdec] at hc
    simp at hc
  | some s =>
    rw [hdec] at hc
    dsimp only [] at hc
    refine ⟨?_, ?_, ?_⟩ <;> rintro rfl
    · have hmem := ascii_mem_of_utf8Decode? hdec hc (by decide)
      have h11 : ('\x0B'.toNat : Nat) = START_OF_BLOCK := by decide
      rw [h11] at hmem
      have hm1 := (List.mem_filter.mp hmem).1
      have hm2 := (List.mem_filter.mp hm1).1
      have hm3 := (List.mem_filter.mp hm2).2
      simp [START_OF_BLOCK] at hm3
    · have hmem := ascii_mem_of_utf8Decode? hdec hc (by decide)
      have h28 : ('\x1C'.toNat : Nat) = END_OF_BLOCK := by decide
      rw [h28] at hmem
      have hm1 := (List.mem_filter.mp hmem).1
      have hm2 := (List.mem_filter.mp hm1).2
      simp [END_OF_BLOCK] at hm2
    · have hmem := ascii_mem_of_utf8Decode? hdec hc (by decide)
      have h13 : ('\x0D'.toNat : Nat) = CARRIAGE_RETURN := by decide
      rw [h13] at hmem
      have hm1 := (List.mem_filter.mp hmem).2
      simp [CARRIAGE_RETURN] at hm1

/-! ## Lemmas about the server's Connection Reader -/

theorem endsWithEnd_iff (l : List Nat) :
    endsWithEnd l = true ↔ ∃ t, t ++ [END_OF_BLOCK, CARRIAGE_RETURN] = l := by
  unfold endsWithEnd MLLP_END
  rw [ List.isSuffixOf_iff_suffix]
  constructor
  · rintro ⟨t, ht⟩
    exact ⟨t, ht⟩
  · rintro ⟨t, ht⟩
    exact ⟨t, ht⟩

theorem dropUntilStart_of_no_start {s : List Nat} (h : START_OF_BLOCK ∉ s) :
    dropUntilStart s = none := by
  induction s with
  | nil => rfl
  | cons b rest ih =>
    unfold dropUntilStart
    rw [if_neg, ih (fun hm => h (List.mem_cons_of_mem b hm))]
    rintro rfl
    exact h (List.mem_cons_self _ _)

theorem dropUntilStart_append {pre : List Nat} (h : START_OF_BLOCK ∉ pre)
    (t : List Nat) :
    dropUntilStart (pre ++ START_OF_BLOCK :: t) = some t := by
  induction pre with
  | nil =>
    rw [List.nil_append]
    simp [dropUntilStart]
  | cons p pre2 ih =>
    rw [List.cons_append]
    simp only [dropUntilStart]
    rw [if_neg, ih (fun hm => h (List.mem_cons_of_mem p hm))]
    rintro rfl
    exact h (List.mem_cons_self _ _)

theorem readBody_of_no_end (stream : List Nat) : ∀ buffer : List Nat,
    ¬ ([END_OF_BLOCK, CARRIAGE_RETURN] <:+: buffer ++ stream) →
    readBody buffer stream = none := by
  induction stream with
  | nil => intro buffer h; rfl
  | cons b rest ih =>
    intro buffer h
    simp only [readBody]
    rw [if_neg, ih (buffer ++ [b]) (by
      rw [List.append_assoc]
      exact h)]
    intro hE
    rcases (endsWithEnd_iff _).mp hE with ⟨t, ht⟩
    exact h ⟨t, rest, by rw [ht]; simp⟩

theorem readBody_complete (body : List Nat) : ∀ (buffer rest : List Nat),
    ¬ ([END_OF_BLOCK, CARRIAGE_RETURN] <:+: buffer ++ body) →
    readBody buffer (body ++ END_OF_BLOCK :: CARRIAGE_RETURN :: rest) =
      some (utf8DecodeIgnore (buffer ++ body)) := by
  induction body with
  | nil =>
    intro buffer rest h
    rw [List.nil_append]
    simp only [readBody]
    rw [if_neg (fun hE => by
      rcases (endsWithEnd_iff _).mp hE with ⟨t, ht⟩
      have h28 : (buffer ++ [END_OF_BLOCK]).getLast? = some END_OF_BLOCK := by
        simp
      rw [← ht] at h28
      rw [show t ++ [END_OF_BLOCK, CARRIAGE_RETURN] =
        (t ++ [END_OF_BLOCK]) ++ [CARRIAGE_RETURN] from by simp] at h28
      rw [List.getLast?_concat] at h28
      exact absurd (Option.some.inj h28) (by decide))]
    rw [if_pos ((endsWithEnd_iff _).mpr ⟨buffer, by simp⟩)]
    have hb : buffer ++ [END_OF_BLOCK] ++ [CARRIAGE_RETURN] =
        buffer ++ [END_OF_BLOCK, CARRIAGE_RETURN] := by simp
    rw [hb, List.length_append]
    simp only [List.length_cons, List.length_nil]
    rw [show buffer.length + (0 + 1 + 1) - 2 = buffer.length from by omega,
      List.take_left, List.append_nil]
  | cons b body2 ih =>
    intro buffer rest h
    rw [List.cons_append]
    simp only [readBody]
    rw [if_neg (fun hE => by
      rcases (endsWithEnd_iff _).mp hE with ⟨t, ht⟩
      exact h ⟨t, body2, by rw [ht]; simp⟩)]
    rw [ih (buffer ++ [b]) rest (by rw [List.append_assoc]; exact h),
      List.append_assoc]
    rfl

/-! ## Claim theorems -/

/-- C1: the spec claims that when the receive deadline elapses with no
complete frame, `send_message` returns success=false, no ack payload and
the error string "Timeout waiting for ACK". The code does not: the blanket
`except Exception` inside `_receive_response` catches `socket.timeout`
(a subclass of `Exception`) and returns `None`, so `send_message` falls
into the falsy-response branch and reports "No ACK received"; the
dedicated `except socket.timeout` handler in `send_message` is
unreachable for receive timeouts. This theorem evaluates the embedded
code at the failing input (a connected socket whose single `recv` raises
the timeout). -/
theorem sendMessage_recv_timeout_yields_noAck :
    (sendMessage
        { connectOk := true, sendallRes := SendallRes.ok, osErrMsg := [],
          recvEvents := [RecvEv.timeout] }
        { sock := some SockSt.connected }).2 =
      { success := false, ack := none,
        error := some "No ACK received".data } ∧
    "No ACK received".data ≠ "Timeout waiting for ACK".data := by
  exact ⟨rfl, by decide⟩

/-- C2 counterexample: the payload `"\r"` does not contain the two-byte
end sentinel sequence, yet unwrapping its client-side frame yields the
empty string, not the payload back — `_unwrap_mllp` deletes every
0x0D byte, including interior ones. -/
theorem roundTrip_cr_counterexample :
    ¬ ([END_OF_BLOCK, CARRIAGE_RETURN] <:+: utf8Encode "\r".data) ∧
    unwrapMllp (mllpWrap (utf8Encode "\r".data)) = [] ∧
    ("\r".data : List Char) ≠ [] := by
  decide

/-- C2 (amended): for every payload containing none of the three
individual sentinel characters 0x0B, 0x1C, 0x0D, unwrapping the frame
built as START_SENTINEL + payload + END_SENTINEL returns exactly the
payload. -/
theorem roundTrip_no_sentinel_chars (P : List Char)
    (hP : ∀ c ∈ P, c ≠ '\x0B' ∧ c ≠ '\x1C' ∧ c ≠ '\x0D') :
    unwrapMllp (mllpWrap (utf8Encode P)) = P := by
  have h11 : START_OF_BLOCK ∉ utf8Encode P := fun hmem => by
    have hc := mem_utf8Encode_ascii (by decide) hmem
    rw [show Char.ofNat START_OF_BLOCK = '\x0B' from by decide] at hc
    exact (hP _ hc).1 rfl
  have h28 : END_OF_BLOCK ∉ utf8Encode P := fun hmem => by
    have hc := mem_utf8Encode_ascii (by decide) hmem
    rw [show Char.ofNat END_OF_BLOCK = '\x1C' from by decide] at hc
    exact (hP _ hc).2.1 rfl
  have h13 : CARRIAGE_RETURN ∉ utf8Encode P := fun hmem => by
    have hc := mem_utf8Encode_ascii (by decide) hmem
    rw [show Char.ofNat CARRIAGE_RETURN = '\x0D' from by decide] at hc
    exact (hP _ hc).2.2 rfl
  simp only [unwrapMllp]
  rw [strip_mllpWrap _ h11 h28 h13, utf8Decode?_utf8Encode]

theorem roundTrip_no_sentinel_chars_witness :
    unwrapMllp (mllpWrap (utf8Encode "MSH|A|B".data)) = "MSH|A|B".data :=
  roundTrip_no_sentinel_chars _ (by decide)

/-- C3: for every connection stream on which the Connection Reader
obtains a complete message — per the spec, an empty decode counts as "no
message obtained (empty/short/aborted read)", matching the `if message:`
truthiness check at line 96 — the handler writes back exactly one framed
acknowledgment whose payload carries `MSA|AA|<original-control-id>`, and
the connection is closed; on an empty frame it closes without writing.
The write-back step (`_process_message`) and the control-id parser are
modelled from the spec, as they are not under `src/`. -/
theorem handleClient_acks_and_closes (pre body rest : List Nat)
    (hpre : START_OF_BLOCK ∉ pre)
    (hbody : ¬ ([END_OF_BLOCK, CARRIAGE_RETURN] <:+: body))
    (hne : utf8DecodeIgnore body ≠ []) :
    handleClient (pre ++ START_OF_BLOCK ::
        (body ++ END_OF_BLOCK :: CARRIAGE_RETURN :: rest)) =
      (some (processMessageWrite (utf8DecodeIgnore body)), true) ∧
    processMessageWrite (utf8DecodeIgnore body) =
      mllpWrap (utf8Encode (ackPayload (utf8DecodeIgnore body))) ∧
    ackPayload (utf8DecodeIgnore body) =
      "MSA|AA|".data ++ serverControlId (utf8DecodeIgnore body) ∧
    handleClient [START_OF_BLOCK, END_OF_BLOCK, CARRIAGE_RETURN] =
      (none, true) := by
  refine ⟨?_, rfl, rfl, by decide⟩
  unfold handleClient readMllpMessage
  rw [dropUntilStart_append hpre]
  have h2 := readBody_complete body [] rest (by
    rw [List.nil_append]
    exact hbody)
  rw [List.nil_append] at h2
  dsimp only []
  rw [h2]
  dsimp only []
  rw [if_neg hne]

theorem handleClient_acks_and_closes_witness :
    (handleClient ([] ++ START_OF_BLOCK ::
        (utf8Encode "MSH|^~\\&|A|B|C|D|20240101||ADT^A01|MSG001|P|2.3\rMSA|AA|MSG001".data
          ++ END_OF_BLOCK :: CARRIAGE_RETURN :: [])) =
      (some (processMessageWrite (utf8DecodeIgnore
        (utf8Encode "MSH|^~\\&|A|B|C|D|20240101||ADT^A01|MSG001|P|2.3\rMSA|AA|MSG001".data))),
        true) ∧
    processMessageWrite (utf8DecodeIgnore
        (utf8Encode "MSH|^~\\&|A|B|C|D|20240101||ADT^A01|MSG001|P|2.3\rMSA|AA|MSG001".data)) =
      mllpWrap (utf8Encode (ackPayload (utf8DecodeIgnore
        (utf8Encode "MSH|^~\\&|A|B|C|D|20240101||ADT^A01|MSG001|P|2.3\rMSA|AA|MSG001".data)))) ∧
    ackPayload (utf8DecodeIgnore
        (utf8Encode "MSH|^~\\&|A|B|C|D|20240101||ADT^A01|MSG001|P|2.3\rMSA|AA|MSG001".data)) =
      "MSA|AA|".data ++ serverControlId (utf8DecodeIgnore
        (utf8Encode "MSH|^~\\&|A|B|C|D|20240101||ADT^A01|MSG001|P|2.3\rMSA|AA|MSG001".data)) ∧
    handleClient [START_OF_BLOCK, END_OF_BLOCK, CARRIAGE_RETURN] =
      (none, true)) ∧
    serverControlId (utf8DecodeIgnore
        (utf8Encode "MSH|^~\\&|A|B|C|D|20240101||ADT^A01|MSG001|P|2.3\rMSA|AA|MSG001".data)) =
      "MSG001".data :=
  ⟨handleClient_acks_and_closes [] _ [] (by decide) (by decide) (by decide),
    by decide⟩

/-- C4: a decoded response classifies as a positive acknowledgment iff it
has a `'\n'`-line that begins with `MSA` and whose second pipe-delimited
field is exactly `AA`; any other code, or no such line, classifies not
positive. -/
theorem isPositiveAck_iff_MSA_AA (ack : List Char) :
    isPositiveAck ack = true ↔
      ∃ line ∈ splitOnC '\n' ack,
        "MSA".data <+: line ∧ (splitOnC '|' line)[1]? = some "AA".data := by
  unfold isPositiveAck
  rw [List.any_eq_true]
  constructor
  · rintro ⟨line, hmem, hline⟩
    rw [Bool.and_eq_true] at hline
    exact ⟨line, hmem, ( List.isPrefixOf_iff_prefix).mp hline.1,
      eq_of_beq hline.2⟩
  · rintro ⟨line, hmem, hpre, heq⟩
    refine ⟨line, hmem, ?_⟩
    rw [Bool.and_eq_true]
    refine ⟨( List.isPrefixOf_iff_prefix).mpr hpre, ?_⟩
    rw [heq]
    exact beq_self_eq_true _

theorem isPositiveAck_iff_MSA_AA_witness :
    isPositiveAck "MSH|1\nMSA|AA|MSG001".data = true ∧
    isPositiveAck "MSA|AE|1".data = false :=
  ⟨(isPositiveAck_iff_MSA_AA _).mpr
      ⟨"MSA|AA|MSG001".data, by decide, by decide, by decide⟩,
    by decide⟩

/-- C5: a stream that ends before a complete frame is seen — whether
before the start sentinel appears or mid-frame before the end sentinel
pair — makes the Connection Reader return `none`: no error, no partial
payload. -/
theorem readMllpMessage_incomplete_none (stream : List Nat)
    (h : ∀ t, dropUntilStart stream = some t →
      ¬ ([END_OF_BLOCK, CARRIAGE_RETURN] <:+: t)) :
    readMllpMessage stream = none := by
  unfold readMllpMessage
  cases hd : dropUntilStart stream with
  | none => rfl
  | some t =>
    exact readBody_of_no_end t [] (by
      rw [List.nil_append]
      exact h t hd)

theorem readMllpMessage_incomplete_none_witness :
    readMllpMessage [1, START_OF_BLOCK, 77, END_OF_BLOCK] = none :=
  readMllpMessage_incomplete_none _ (fun t ht => by
    rw [show dropUntilStart [1, START_OF_BLOCK, 77, END_OF_BLOCK] =
      some [77, END_OF_BLOCK] from by decide] at ht
    rw [← Option.some.inj ht]
    decide)

/-- C6: on a stream holding a complete frame, the Connection Reader
discards everything before the first start sentinel and returns exactly
the bytes strictly between it and the first subsequent end-sentinel pair,
lossily decoded (`errors='ignore'`). -/
theorem readMllpMessage_frame_extract (pre body rest : List Nat)
    (hpre : START_OF_BLOCK ∉ pre)
    (hbody : ¬ ([END_OF_BLOCK, CARRIAGE_RETURN] <:+: body)) :
    readMllpMessage (pre ++ START_OF_BLOCK ::
        (body ++ END_OF_BLOCK :: CARRIAGE_RETURN :: rest)) =
      some (utf8DecodeIgnore body) := by
  unfold readMllpMessage
  rw [dropUntilStart_append hpre]
  have h2 := readBody_complete body [] rest (by
    rw [List.nil_append]
    exact hbody)
  rw [List.nil_append] at h2
  exact h2

theorem readMllpMessage_frame_extract_witness :
    readMllpMessage ([1] ++ START_OF_BLOCK ::
        ([65] ++ END_OF_BLOCK :: CARRIAGE_RETURN :: [9])) =
      some (utf8DecodeIgnore [65]) :=
  readMllpMessage_frame_extract [1] [65] [9] (by decide) (by decide)

/-- C7: control-identifier extraction returns field index 9 of the
pipe-split first line when there are at least 10 fields, and the
"UNKNOWN" sentinel — which is not an empty string — when there are
fewer; the embedded function is total, as the code never raises. -/
theorem extractMessageId_spec (msg : List Char) :
    (10 ≤ (headerFields msg).length →
      (headerFields msg)[9]? = some (extractMessageId msg)) ∧
    ((headerFields msg).length < 10 →
      extractMessageId msg = "UNKNOWN".data) ∧
    ((headerFields msg).length < 10 → extractMessageId msg ≠ []) := by
  unfold extractMessageId
  cases hf : (headerFields msg)[9]? with
  | some f =>
    refine ⟨fun h10 => rfl, fun hlt => ?_, fun hlt => ?_⟩
    · rw [List.getElem?_eq_none (by omega)] at hf
      exact Option.noConfusion hf
    · rw [List.getElem?_eq_none (by omega)] at hf
      exact Option.noConfusion hf
  | none =>
    refine ⟨fun h10 => ?_, fun hlt => rfl, fun hlt => by decide⟩
    rw [List.getElem?_eq_getElem (by omega)] at hf
    exact Option.noConfusion hf

theorem extractMessageId_spec_witness :
    (headerFields "MSH|a|b|c|d|e|f|g|h|CTRL123".data)[9]? =
      some (extractMessageId "MSH|a|b|c|d|e|f|g|h|CTRL123".data) ∧
    extractMessageId "MSH|a|b".data = "UNKNOWN".data :=
  ⟨(extractMessageId_spec _).1 (by decide),
    (extractMessageId_spec _).2.1 (by decide)⟩

/-- C8 counterexample: decoding is NOT done with replacement. For the
framed payload `0xFF 'A'`, the server's reader drops the invalid byte and
returns `"A"`, whereas a replacing decode (the spec's words) would return
`"� A"`; the client's unwrap on the same frame rejects the whole
payload to the empty string. -/
theorem decode_ignores_not_replaces_counterexample :
    readMllpMessage
        [START_OF_BLOCK, 0xFF, 0x41, END_OF_BLOCK, CARRIAGE_RETURN] =
      some "A".data ∧
    utf8DecodeReplace [0xFF, 0x41] = "�".data ++ "A".data ∧
    ("A".data : List Char) ≠ "�".data ++ "A".data ∧
    unwrapMllp [START_OF_BLOCK, 0xFF, 0x41, END_OF_BLOCK, CARRIAGE_RETURN]
      = [] := by
  decide

/-- C8 (amended): the server's reader never rejects or crashes on a frame
whose payload is not valid UTF-8 — it always returns a decoded text, with
invalid byte sequences dropped (`errors='ignore'`), not replaced; the
client's unwrap instead returns the empty string on invalid UTF-8 (shown
in the counterexample). -/
theorem readMllpMessage_invalid_utf8_still_text (payload : List Nat)
    (h : ¬ ([END_OF_BLOCK, CARRIAGE_RETURN] <:+: payload)) :
    readMllpMessage (START_OF_BLOCK :: payload ++
        [END_OF_BLOCK, CARRIAGE_RETURN]) =
      some (utf8DecodeIgnore payload) := by
  unfold readMllpMessage
  rw [show START_OF_BLOCK :: payload ++ [END_OF_BLOCK, CARRIAGE_RETURN] =
    [] ++ START_OF_BLOCK :: (payload ++ END_OF_BLOCK :: CARRIAGE_RETURN :: [])
    from by simp]
  rw [dropUntilStart_append (by decide)]
  have h2 := readBody_complete payload [] [] (by
    rw [List.nil_append]
    exact h)
  rw [List.nil_append] at h2
  exact h2

theorem readMllpMessage_invalid_utf8_still_text_witness :
    readMllpMessage (START_OF_BLOCK :: [0xFF, 0x41] ++
        [END_OF_BLOCK, CARRIAGE_RETURN]) =
      some (utf8DecodeIgnore [0xFF, 0x41]) :=
  readMllpMessage_invalid_utf8_still_text [0xFF, 0x41] (by decide)

/-- C9: the client's unwrap deletes every 0x0B, 0x1C and 0x0D byte
anywhere in the buffer, so its output string never contains those
characters; in particular a carriage-return-separated two-segment ack
collapses into a single line. -/
theorem unwrapMllp_strips_all_sentinels :
    (∀ (buf : List Nat) (c : Char), c ∈ unwrapMllp buf →
      c ≠ '\x0B' ∧ c ≠ '\x1C' ∧ c ≠ '\x0D') ∧
    unwrapMllp (mllpWrap (utf8Encode "MSH|X\rMSA|AA|7".data)) =
      "MSH|XMSA|AA|7".data ∧
    splitOnC '\n' (unwrapMllp (mllpWrap (utf8Encode "MSH|X\rMSA|AA|7".data)))
      = ["MSH|XMSA|AA|7".data] :=
  ⟨fun buf c hc => unwrapMllp_no_sentinel_chars buf c hc, by decide,
    by decide⟩

theorem unwrapMllp_strips_all_sentinels_witness :
    'A' ≠ '\x0B' ∧ 'A' ≠ '\x1C' ∧ 'A' ≠ '\x0D' :=
  unwrapMllp_strips_all_sentinels.1 [65] 'A' (by decide)

/-- C10: a failed `connect` leaves `self.socket` non-None (the socket
object is assigned before the TCP connect attempt), so a following
`send_message` skips reconnection, never reports "Failed to connect to
server", and instead surfaces the `sendall` failure on the unconnected
socket as "Error sending message: ...". -/
theorem connect_failure_keeps_socket_then_send_error (m : List Char) :
    (connectM
        { connectOk := false, sendallRes := SendallRes.ok, osErrMsg := m,
          recvEvents := [] } { sock := none }).2 = false ∧
    (connectM
        { connectOk := false, sendallRes := SendallRes.ok, osErrMsg := m,
          recvEvents := [] } { sock := none }).1.sock ≠ none ∧
    (sendMessage
        { connectOk := false, sendallRes := SendallRes.ok, osErrMsg := m,
          recvEvents := [] }
        (connectM
          { connectOk := false, sendallRes := SendallRes.ok, osErrMsg := m,
            recvEvents := [] } { sock := none }).1).2 =
      { success := false, ack := none,
        error := some ("Error sending message: ".data ++ m) } ∧
    some ("Error sending message: ".data ++ m) ≠
      some "Failed to connect to server".data := by
  refine ⟨rfl, fun hcontr => Option.noConfusion hcontr, rfl, ?_⟩
  intro hcontr
  have hlist := Option.some.inj hcontr
  have hE : ("Error sending message: ".data ++ m).head? = some 'E' := by
    rw [show "Error sending message: ".data =
      'E' :: "rror sending message: ".data from by decide]
    rfl
  rw [hlist] at hE
  rw [show ("Failed to connect to server".data).head? = some 'F' from by
    decide] at hE
  exact absurd (Option.some.inj hE) (by decide)

theorem connect_failure_keeps_socket_then_send_error_witness :
    (sendMessage
        { connectOk := false, sendallRes := SendallRes.ok,
          osErrMsg := "X".data, recvEvents := [] }
        (connectM
          { connectOk := false, sendallRes := SendallRes.ok,
            osErrMsg := "X".data, recvEvents := [] } { sock := none }).1).2 =
      { success := false, ack := none,
        error := some ("Error sending message: ".data ++ "X".data) } :=
  (connect_failure_keeps_socket_then_send_error "X".data).2.2.1

end MLLP